import Mathlib

/-!
Shallow embedding of the time-series ingestion and aggregation engine of
`terrariumDatabase.py` (TerrariumPI persistence layer), together with proofs
about its behaviour.

Modelling conventions:
* Python `float` values are modelled as `ℚ` (all operations used by the code
  are additions and exact halving, so rationals are a faithful model).
* `datetime` timestamps are modelled as `ℤ` (seconds); `datetime.now()` becomes
  an explicit `now : ℤ` parameter, and
  `datetime.now().replace(second=0, microsecond=0)` becomes `minuteTrunc now`.
* A Pony ORM history `Set` is modelled as a `List` of rows; inserting a row
  conses it onto the list, and an in-place ORM row mutation is modelled by
  mapping a replacement over the list (the primary key on
  `(owner, timestamp)` means at most one row is replaced).
* `self.history.filter(lambda h: h.timestamp >= limit).order_by(desc(timestamp)).first()`
  is modelled by `latestSince`: filter, then pick the row with the maximal
  timestamp.
* `None` readings / missing values are modelled with `Option`.
-/

/-- `datetime.now().replace(second=0, microsecond=0)`: truncate a timestamp in
seconds down to its whole minute.  `%` on `ℤ` is `Int.emod`, which agrees with
Python's nonnegative `%`. -/
def minuteTrunc (t : ℤ) : ℤ := t - t % 60

/-- The row with the maximal timestamp (`order_by(desc(timestamp)).first()`).
On a timestamp tie the earlier listed row is kept; ties cannot occur in
reachable states because `(owner, timestamp)` is a primary key. -/
def newestRow {α : Type} (ts : α → ℤ) : List α → Option α
  | [] => none
  | r :: rs =>
    match newestRow ts rs with
    | none => some r
    | some m => some (if ts r < ts m then m else r)

/-- `history.filter(lambda h: h.timestamp >= limit).order_by(desc(timestamp)).first()`. -/
def latestSince {α : Type} (ts : α → ℤ) (limit : ℤ) (rows : List α) : Option α :=
  newestRow ts (rows.filter fun h => limit ≤ ts h)

/-! ## Button (`class Button`, `class ButtonHistory`) -/

/-- A `ButtonHistory` row: `button` owner is implicit (each list of rows is one
button's history), `timestamp`, `value`. -/
structure ButtonHistoryRow where
  timestamp : ℤ
  value : ℚ
  deriving Repr, DecidableEq

namespace Button

/-- `__MAX_VALUE_AGE = 65 * 60`. -/
def MAX_VALUE_AGE : ℤ := 65 * 60

/-- `Button.value`: latest history row within the staleness window, else `None`. -/
def value (hist : List ButtonHistoryRow) (now : ℤ) : Option ℚ :=
  (latestSince (·.timestamp) (now - MAX_VALUE_AGE) hist).map (·.value)

/-- `Button.error`: `True if self.value is None else False`. -/
def error (hist : List ButtonHistoryRow) (now : ℤ) : Bool :=
  (value hist now).isNone

/-- `Button.update(new_value, force=False)`: `None` reading is a no-op; on
`force or new_value != self.value` a new history row is inserted at `now`.
Returns the inserted row (or `none`) together with the updated history. -/
def update (hist : List ButtonHistoryRow) (new_value : Option ℚ) (force : Bool)
    (now : ℤ) : Option ButtonHistoryRow × List ButtonHistoryRow :=
  match new_value with
  | none => (none, hist)
  | some v =>
    if force || (some v ≠ value hist now) then
      let button_data : ButtonHistoryRow := { timestamp := now, value := v }
      (some button_data, button_data :: hist)
    else
      (none, hist)

end Button

/-! ## Relay (`class Relay`, `class RelayHistory`) -/

/-- Static configuration of a `Relay` entity (fields the aggregation core reads). -/
structure Relay where
  id : String
  hardware : String
  name : String
  address : String
  wattage : ℚ := 0
  flow : ℚ := 0
  manual_mode : Bool := false
  deriving Repr, DecidableEq

/-- A `RelayHistory` row. -/
structure RelayHistoryRow where
  timestamp : ℤ
  value : ℚ
  wattage : ℚ
  flow : ℚ
  deriving Repr, DecidableEq

namespace Relay

/-- `__MAX_VALUE_AGE = 65 * 60`. -/
def MAX_VALUE_AGE : ℤ := 65 * 60

/-- `Relay.value`: latest history row within the staleness window, else `None`. -/
def value (hist : List RelayHistoryRow) (now : ℤ) : Option ℚ :=
  (latestSince (·.timestamp) (now - MAX_VALUE_AGE) hist).map (·.value)

/-- `Relay.error`. -/
def error (hist : List RelayHistoryRow) (now : ℤ) : Bool :=
  (value hist now).isNone

/-- `Relay.is_dimmer`: hardware kind ends with `-dimmer`. -/
def is_dimmer (r : Relay) : Bool := r.hardware.endsWith "-dimmer"

/-- `Relay.is_on`: `self.value is not None and self.value > 0`. -/
def is_on (hist : List RelayHistoryRow) (now : ℤ) : Bool :=
  match value hist now with
  | none => false
  | some x => decide (0 < x)

/-- `Relay.is_off`. -/
def is_off (hist : List RelayHistoryRow) (now : ℤ) : Bool :=
  !(is_on hist now)

/-- `Relay.current_wattage`: `0` on `None`, else `value * wattage / 100`. -/
def current_wattage (r : Relay) (hist : List RelayHistoryRow) (now : ℤ) : ℚ :=
  match value hist now with
  | none => 0
  | some x => x * r.wattage / 100

/-- `Relay.current_flow`: `0` on `None`, else `value * flow / 100`. -/
def current_flow (r : Relay) (hist : List RelayHistoryRow) (now : ℤ) : ℚ :=
  match value hist now with
  | none => 0
  | some x => x * r.flow / 100

/-- `Relay.type`. -/
def type (r : Relay) : String := if is_dimmer r then "dimmer" else "relay"

/-- `Relay.update(new_value, force=False)`: `None` reading returns `None`; on
`force or new_value != self.value` a new row is inserted at `now` with the
derived wattage and flow; otherwise no-op. -/
def update (r : Relay) (hist : List RelayHistoryRow) (new_value : Option ℚ)
    (force : Bool) (now : ℤ) : Option RelayHistoryRow × List RelayHistoryRow :=
  match new_value with
  | none => (none, hist)
  | some v =>
    if force || (some v ≠ value hist now) then
      let relay_data : RelayHistoryRow :=
        { timestamp := now
          value := v
          wattage := (v / 100) * r.wattage
          flow := (v / 100) * r.flow }
      (some relay_data, relay_data :: hist)
    else
      (none, hist)

end Relay

/-! ## Sensor (`class Sensor`, `class SensorHistory`) -/

/-- Static configuration of a `Sensor` entity (fields the aggregation core reads).
Defaults mirror the ORM column defaults. -/
structure Sensor where
  id : String
  hardware : String
  type : String
  name : String
  address : String
  limit_min : ℚ := 0
  limit_max : ℚ := 100
  alarm_min : ℚ := 0
  alarm_max : ℚ := 100
  max_diff : ℚ := 0
  exclude_avg : Bool := false
  deriving Repr, DecidableEq

/-- A `SensorHistory` row: the measured value plus a snapshot of the owning
sensor's limit/alarm thresholds. -/
structure SensorHistoryRow where
  timestamp : ℤ
  value : ℚ
  limit_min : ℚ
  limit_max : ℚ
  alarm_min : ℚ
  alarm_max : ℚ
  deriving Repr, DecidableEq

namespace Sensor

/-- `__MAX_VALUE_AGE = 5 * 60`. -/
def MAX_VALUE_AGE : ℤ := 5 * 60

/-- `__VALUE_MODE = 2`: mode 1 keeps the first value, mode 2 stores the running
average, mode 3 overwrites with the last value. -/
def VALUE_MODE : ℕ := 2

/-- `Sensor.value`: latest history row within the staleness window, else `None`. -/
def value (hist : List SensorHistoryRow) (now : ℤ) : Option ℚ :=
  (latestSince (·.timestamp) (now - MAX_VALUE_AGE) hist).map (·.value)

/-- `Sensor.error`. -/
def error (hist : List SensorHistoryRow) (now : ℤ) : Bool :=
  (value hist now).isNone

/-- `Sensor.alarm`: `False` on error, else
`not (self.alarm_min <= self.value <= self.alarm_max)` evaluated against the
entity's live thresholds. -/
def alarm (s : Sensor) (hist : List SensorHistoryRow) (now : ℤ) : Bool :=
  if error hist now then false
  else
    match value hist now with
    | none => false
    | some x => !(decide (s.alarm_min ≤ x) && decide (x ≤ s.alarm_max))

/-- `Sensor.update(value)`: `None` is a no-op; otherwise the current minute
bucket is probed.  With an existing row: mode 1 returns it untouched; mode 3
overwrites value and thresholds; any other mode (the configured mode 2)
averages the stored value with the reading and each threshold with the
entity's current threshold.  Without an existing row a fresh row is created
with the reading and the entity's thresholds verbatim.  Returns the
returned row together with the updated history. -/
def update (s : Sensor) (hist : List SensorHistoryRow) (value : Option ℚ)
    (now : ℤ) : Option SensorHistoryRow × List SensorHistoryRow :=
  match value with
  | none => (none, hist)
  | some v =>
    let timestamp := minuteTrunc now
    match hist.find? (fun h => h.timestamp = timestamp) with
    | some sensor_data =>
      if VALUE_MODE = 1 then
        (some sensor_data, hist)
      else
        let merged : SensorHistoryRow :=
          { sensor_data with
            value := if VALUE_MODE = 3 then v else (sensor_data.value + v) / 2
            limit_min := if VALUE_MODE = 3 then s.limit_min
                         else (sensor_data.limit_min + s.limit_min) / 2
            limit_max := if VALUE_MODE = 3 then s.limit_max
                         else (sensor_data.limit_max + s.limit_max) / 2
            alarm_min := if VALUE_MODE = 3 then s.alarm_min
                         else (sensor_data.alarm_min + s.alarm_min) / 2
            alarm_max := if VALUE_MODE = 3 then s.alarm_max
                         else (sensor_data.alarm_max + s.alarm_max) / 2 }
        (some merged,
         hist.map fun h => if h.timestamp = timestamp then merged else h)
    | none =>
      let sensor_data : SensorHistoryRow :=
        { timestamp := timestamp
          value := v
          limit_min := s.limit_min
          limit_max := s.limit_max
          alarm_min := s.alarm_min
          alarm_max := s.alarm_max }
      (some sensor_data, sensor_data :: hist)

/-- Apply `Sensor.update` to a sequence of `(now, reading)` pairs in order. -/
def updateMany (s : Sensor) (hist : List SensorHistoryRow) :
    List (ℤ × ℚ) → List SensorHistoryRow
  | [] => hist
  | (t, v) :: rest => updateMany s (update s hist (some v) t).2 rest

end Sensor

/-- Cumulative pairwise average in call order: starting from a first stored
value, each later reading is averaged with the stored value. -/
def cumAvg (a : ℚ) (vs : List ℚ) : ℚ := vs.foldl (fun x v => (x + v) / 2) a

/-- The running-average merge of an existing bucket row with a new reading, as
the spec states it: the stored value and every threshold field are pairwise
averaged (value with the reading, thresholds with the entity's current
thresholds).  Used to state what mode 2 of `Sensor.update` does. -/
def runningMerge (s : Sensor) (r : SensorHistoryRow) (v : ℚ) : SensorHistoryRow :=
  { r with
    value := (r.value + v) / 2
    limit_min := (r.limit_min + s.limit_min) / 2
    limit_max := (r.limit_max + s.limit_max) / 2
    alarm_min := (r.alarm_min + s.alarm_min) / 2
    alarm_max := (r.alarm_max + s.alarm_max) / 2 }

/-- The fresh history row `Sensor.update` creates when the minute bucket has no
row yet: reading and current thresholds verbatim. -/
def freshRow (s : Sensor) (v : ℚ) (b : ℤ) : SensorHistoryRow :=
  { timestamp := b
    value := v
    limit_min := s.limit_min
    limit_max := s.limit_max
    alarm_min := s.alarm_min
    alarm_max := s.alarm_max }

/-- The history row `Relay.update` inserts for reading `v` at time `t`. -/
def relayRow (r : Relay) (v : ℚ) (t : ℤ) : RelayHistoryRow :=
  { timestamp := t
    value := v
    wattage := (v / 100) * r.wattage
    flow := (v / 100) * r.flow }

/-- A concrete sensor entity used to instantiate proved statements. -/
def sampleSensor : Sensor :=
  { id := "sensor1", hardware := "sht25", type := "temperature",
    name := "temp", address := "1" }

/-- A concrete relay entity used to instantiate proved statements. -/
def sampleRelay : Relay :=
  { id := "relay1", hardware := "gpio", name := "pump", address := "2",
    wattage := 40, flow := 10 }

/-! ## Enclosure image renaming (`Enclosure.__rename_image`)

Paths are modelled as `List Char`.  `re.IGNORECASE` matching is modelled by
ASCII lowercase folding (all strings involved - UUID ids, extensions - are
ASCII). -/

/-- The ASCII uppercase/lowercase letter pairs. -/
def upperLower : List (Char × Char) :=
  [('A', 'a'), ('B', 'b'), ('C', 'c'), ('D', 'd'), ('E', 'e'), ('F', 'f'),
   ('G', 'g'), ('H', 'h'), ('I', 'i'), ('J', 'j'), ('K', 'k'), ('L', 'l'),
   ('M', 'm'), ('N', 'n'), ('O', 'o'), ('P', 'p'), ('Q', 'q'), ('R', 'r'),
   ('S', 's'), ('T', 't'), ('U', 'u'), ('V', 'v'), ('W', 'w'), ('X', 'x'),
   ('Y', 'y'), ('Z', 'z')]

/-- ASCII lowercase folding of one character. -/
def lowerChar (c : Char) : Char :=
  match upperLower.find? (fun p => p.1 = c) with
  | some p => p.2
  | none => c

/-- ASCII lowercase folding of a path. -/
def strLower (s : List Char) : List Char := s.map lowerChar

/-- The extensions accepted by the regex `f'{id}\.(jpg|jpeg|gif|png)$'`. -/
def imageExtensions : List (List Char) :=
  ["jpg".toList, "jpeg".toList, "gif".toList, "png".toList]

/-- `re.compile(f'{self.id}\.(jpg|jpeg|gif|png)$', re.IGNORECASE).search(self.image)`:
the image path ends, case-insensitively, with the id, a dot and an accepted
extension.  (A UUID id contains only hex digits and dashes, so the id's
characters are regex-literal.) -/
def imageMatches (id image : List Char) : Bool :=
  imageExtensions.any fun ext =>
    (strLower (id ++ '.' :: ext)).isSuffixOf (strLower image)

/-- Split a character list at its first `'.'`: `some (before, after)` when a
dot occurs, `none` otherwise. -/
def splitAtFirstDot : List Char → Option (List Char × List Char)
  | [] => none
  | c :: cs =>
    if c = '.' then some ([], cs)
    else (splitAtFirstDot cs).map fun p => (c :: p.1, p.2)

/-- `pathlib` `suffix` of a final path component: the part from the last dot
onward, provided that dot is neither the first nor the last character of the
component; empty otherwise. -/
def pySuffix (name : List Char) : List Char :=
  match splitAtFirstDot name.reverse with
  | none => []
  | some (e, a) => if e ≠ [] ∧ a ≠ [] then '.' :: e.reverse else []

/-- Drop trailing `'/'` characters (`pathlib` ignores trailing empty
components). -/
def stripSlashes (s : List Char) : List Char :=
  (s.reverse.dropWhile (· = '/')).reverse

/-- `pathlib` `name`: the final path component. -/
def pyName (s : List Char) : List Char :=
  ((stripSlashes s).reverse.takeWhile (· ≠ '/')).reverse

/-- `str(pathlib.Path(s).parent)` on a normalized path; `"."` when there is no
directory part, `"/"` for a direct child of the root. -/
def pyParent (s : List Char) : List Char :=
  let rest := stripSlashes (((stripSlashes s).reverse.dropWhile (· ≠ '/')).reverse)
  if rest = [] then
    if (stripSlashes s).take 1 = ['/'] then "/".toList else ".".toList
  else rest

/-- `Enclosure.__rename_image`, as the transformation of the stored image path
(run by `before_insert` and `before_update`): when the regex already matches
the path is kept unchanged, otherwise the file is renamed to
`f'{image.parent}/{self.id}{image.suffix}'` and that name is stored. -/
def renamedImage (id image : List Char) : List Char :=
  if imageMatches id image then image
  else pyParent image ++ '/' :: (id ++ pySuffix (pyName image))

/-! ## `SensorHistory.alarm` (the property declared without `self`) -/

namespace SensorHistory

/-- Number of parameters in the getter declaration `def alarm():` - zero, the
`self` parameter is missing. -/
def alarmParamCount : ℕ := 0

/-- Python call semantics for a property getter: reading the attribute calls
the getter function with exactly one positional argument (the instance); if
the function does not declare exactly one parameter the call raises
`TypeError`. -/
def callGetter {α : Type} (paramCount : ℕ) (body : SensorHistoryRow → α)
    (self : SensorHistoryRow) : Except String α :=
  if paramCount = 1 then .ok (body self) else .error "TypeError"

/-- The body of `SensorHistory.alarm` as written (only reachable if the call
succeeded): the `self.value is None` guard is vacuous because `value` is a
required float column, the rest evaluates the snapshot thresholds. -/
def alarmBody (self : SensorHistoryRow) : Bool :=
  !(decide (self.alarm_min ≤ self.value) && decide (self.value ≤ self.alarm_max))

/-- Reading `row.alarm` on a `SensorHistory` row: the getter declared with
`alarmParamCount` parameters is called with the one argument `row`. -/
def alarm (row : SensorHistoryRow) : Except String Bool :=
  callGetter alarmParamCount alarmBody row

end SensorHistory

/-! ## Helper lemmas about the ledger resolver -/

theorem newestRow_mem {α : Type} (ts : α → ℤ) :
    ∀ {l : List α} {m : α}, newestRow ts l = some m → m ∈ l
  | [], m, h => by simp [newestRow] at h
  | r :: rs, m, h => by
    unfold newestRow at h
    cases hrs : newestRow ts rs with
    | none =>
      rw [hrs] at h
      simp only [Option.some.injEq] at h
      exact h ▸ List.mem_cons_self r rs
    | some m' =>
      rw [hrs] at h
      simp only [Option.some.injEq] at h
      subst h
      by_cases hlt : ts r < ts m'
      · simp only [if_pos hlt]
        exact List.mem_cons_of_mem r (newestRow_mem ts hrs)
      · simp only [if_neg hlt]
        exact List.mem_cons_self r rs

theorem newestRow_eq_none {α : Type} (ts : α → ℤ) (l : List α) :
    newestRow ts l = none ↔ l = [] := by
  cases l with
  | nil => simp [newestRow]
  | cons r rs =>
    simp only [newestRow]
    constructor
    · intro h
      cases hrs : newestRow ts rs <;> rw [hrs] at h <;> exact absurd h (by simp)
    · intro h
      exact absurd h (by simp)

theorem newestRow_is_max {α : Type} (ts : α → ℤ) :
    ∀ {l : List α} {m : α}, newestRow ts l = some m → ∀ h ∈ l, ts h ≤ ts m
  | [], m, h => by simp [newestRow] at h
  | r :: rs, m, h => by
    unfold newestRow at h
    cases hrs : newestRow ts rs with
    | none =>
      rw [hrs] at h
      simp only [Option.some.injEq] at h
      subst h
      have hnil : rs = [] := (newestRow_eq_none ts rs).mp hrs
      subst hnil
      intro x hx
      simp at hx
      exact hx ▸ le_refl _
    | some m' =>
      rw [hrs] at h
      simp only [Option.some.injEq] at h
      subst h
      have ih := newestRow_is_max ts hrs
      intro x hx
      rcases List.mem_cons.mp hx with hx | hx
      · subst hx
        by_cases hlt : ts x < ts m'
        · simp only [if_pos hlt]
          exact le_of_lt hlt
        · simp only [if_neg hlt]
          exact le_refl _
      · by_cases hlt : ts r < ts m'
        · simp only [if_pos hlt]
          exact ih x hx
        · simp only [if_neg hlt]
          exact le_trans (ih x hx) (not_lt.mp hlt)

theorem newestRow_cons_head {α : Type} (ts : α → ℤ) (r : α) (rs : List α)
    (hmax : ∀ h ∈ rs, ts h ≤ ts r) : newestRow ts (r :: rs) = some r := by
  unfold newestRow
  cases hrs : newestRow ts rs with
  | none => rfl
  | some m =>
    have hm : m ∈ rs := newestRow_mem ts hrs
    have hnlt : ¬ ts r < ts m := not_lt.mpr (hmax m hm)
    simp [hnlt]

theorem pairwise_ts_inj {α : Type} (ts : α → ℤ) :
    ∀ {l : List α}, l.Pairwise (fun a b => ts a ≠ ts b) →
      ∀ a ∈ l, ∀ b ∈ l, ts a = ts b → a = b
  | [], _, a, ha, _, _, _ => absurd ha (List.not_mem_nil a)
  | x :: xs, hpw, a, ha, b, hb, hab => by
    rcases List.pairwise_cons.mp hpw with ⟨hx, hxs⟩
    rcases List.mem_cons.mp ha with ha | ha <;> rcases List.mem_cons.mp hb with hb | hb
    · exact ha.trans hb.symm
    · exact absurd (ha ▸ hab) (hx b hb)
    · exact absurd (hb ▸ hab.symm) (hx a ha)
    · exact pairwise_ts_inj ts hxs a ha b hb hab

theorem newestRow_eq_some_iff {α : Type} (ts : α → ℤ) (l : List α) (r : α)
    (hpw : l.Pairwise (fun a b => ts a ≠ ts b)) :
    newestRow ts l = some r ↔ r ∈ l ∧ ∀ h ∈ l, ts h ≤ ts r := by
  constructor
  · intro h
    exact ⟨newestRow_mem ts h, newestRow_is_max ts h⟩
  · rintro ⟨hr, hmax⟩
    cases hm : newestRow ts l with
    | none =>
      rw [newestRow_eq_none] at hm
      exact absurd (hm ▸ hr) (List.not_mem_nil r)
    | some m =>
      have hmem : m ∈ l := newestRow_mem ts hm
      have h1 : ts m ≤ ts r := hmax m hmem
      have h2 : ts r ≤ ts m := newestRow_is_max ts hm r hr
      have hmr : m = r := pairwise_ts_inj ts hpw m hmem r hr (le_antisymm h1 h2)
      exact congrArg some hmr

theorem latestSince_eq_some_iff {α : Type} (ts : α → ℤ) (limit : ℤ)
    (l : List α) (r : α) (hpw : l.Pairwise (fun a b => ts a ≠ ts b)) :
    latestSince ts limit l = some r ↔
      r ∈ l ∧ limit ≤ ts r ∧ ∀ h ∈ l, limit ≤ ts h → ts h ≤ ts r := by
  unfold latestSince
  have hpwf : (l.filter fun h => limit ≤ ts h).Pairwise (fun a b => ts a ≠ ts b) :=
    hpw.filter _
  rw [newestRow_eq_some_iff ts _ r hpwf]
  simp only [List.mem_filter, decide_eq_true_eq]
  constructor
  · rintro ⟨⟨hr, hfr⟩, hmax⟩
    exact ⟨hr, hfr, fun h hh hfh => hmax h ⟨hh, hfh⟩⟩
  · rintro ⟨hr, hfr, hmax⟩
    exact ⟨⟨hr, hfr⟩, fun h hh => hmax h hh.1 hh.2⟩

theorem latestSince_eq_none_iff {α : Type} (ts : α → ℤ) (limit : ℤ) (l : List α) :
    latestSince ts limit l = none ↔ ∀ h ∈ l, ¬ limit ≤ ts h := by
  unfold latestSince
  rw [newestRow_eq_none]
  simp [List.filter_eq_nil_iff]

theorem latestSince_cons_fresh {α : Type} (ts : α → ℤ) (limit : ℤ) (row : α)
    (l : List α) (hfresh : limit ≤ ts row) (hmax : ∀ h ∈ l, ts h ≤ ts row) :
    latestSince ts limit (row :: l) = some row := by
  unfold latestSince
  rw [List.filter_cons_of_pos (by simpa using hfresh)]
  exact newestRow_cons_head ts row _ fun h hh => hmax h (List.mem_filter.mp hh).1

theorem latestSince_map_some {α β : Type} (ts : α → ℤ) (val : α → β) (limit : ℤ)
    (l : List α) (r : α) (hpw : l.Pairwise fun a b => ts a ≠ ts b)
    (hr : r ∈ l) (hfr : limit ≤ ts r)
    (hmax : ∀ h ∈ l, limit ≤ ts h → ts h ≤ ts r) :
    (latestSince ts limit l).map val = some (val r) := by
  rw [(latestSince_eq_some_iff ts limit l r hpw).mpr ⟨hr, hfr, hmax⟩]
  rfl

/-! ## Claim theorems -/

/-- C3: for every entity kind, `currentValue` is the value of the history row
with the maximal timestamp among the rows inside the kind's staleness window
(Sensor = 300 s, Relay = 3900 s, Button = 3900 s) before `now`, `none` when no
row qualifies - in particular on an empty history - and `error` is true exactly
when `currentValue` is `none`. -/
theorem currentValue_staleness_windows :
    (Sensor.MAX_VALUE_AGE = 300 ∧ Relay.MAX_VALUE_AGE = 3900
      ∧ Button.MAX_VALUE_AGE = 3900)
    ∧ (∀ now : ℤ, Sensor.value [] now = none ∧ Sensor.error [] now = true
        ∧ Relay.value [] now = none ∧ Relay.error [] now = true
        ∧ Button.value [] now = none ∧ Button.error [] now = true)
    ∧ (∀ (hist : List SensorHistoryRow) (now : ℤ),
        Sensor.error hist now = true ↔ Sensor.value hist now = none)
    ∧ (∀ (hist : List RelayHistoryRow) (now : ℤ),
        Relay.error hist now = true ↔ Relay.value hist now = none)
    ∧ (∀ (hist : List ButtonHistoryRow) (now : ℤ),
        Button.error hist now = true ↔ Button.value hist now = none)
    ∧ (∀ (hist : List SensorHistoryRow) (now : ℤ) (r : SensorHistoryRow),
        hist.Pairwise (fun a b => a.timestamp ≠ b.timestamp) →
        r ∈ hist → now - 300 ≤ r.timestamp →
        (∀ h ∈ hist, now - 300 ≤ h.timestamp → h.timestamp ≤ r.timestamp) →
        Sensor.value hist now = some r.value)
    ∧ (∀ (hist : List SensorHistoryRow) (now : ℤ),
        Sensor.value hist now = none ↔ ∀ h ∈ hist, ¬ now - 300 ≤ h.timestamp)
    ∧ (∀ (hist : List RelayHistoryRow) (now : ℤ) (r : RelayHistoryRow),
        hist.Pairwise (fun a b => a.timestamp ≠ b.timestamp) →
        r ∈ hist → now - 3900 ≤ r.timestamp →
        (∀ h ∈ hist, now - 3900 ≤ h.timestamp → h.timestamp ≤ r.timestamp) →
        Relay.value hist now = some r.value)
    ∧ (∀ (hist : List RelayHistoryRow) (now : ℤ),
        Relay.value hist now = none ↔ ∀ h ∈ hist, ¬ now - 3900 ≤ h.timestamp)
    ∧ (∀ (hist : List ButtonHistoryRow) (now : ℤ) (r : ButtonHistoryRow),
        hist.Pairwise (fun a b => a.timestamp ≠ b.timestamp) →
        r ∈ hist → now - 3900 ≤ r.timestamp →
        (∀ h ∈ hist, now - 3900 ≤ h.timestamp → h.timestamp ≤ r.timestamp) →
        Button.value hist now = some r.value)
    ∧ (∀ (hist : List ButtonHistoryRow) (now : ℤ),
        Button.value hist now = none ↔ ∀ h ∈ hist, ¬ now - 3900 ≤ h.timestamp) := by
  have hS : Sensor.MAX_VALUE_AGE = 300 := by decide
  have hR : Relay.MAX_VALUE_AGE = 3900 := by decide
  have hB : Button.MAX_VALUE_AGE = 3900 := by decide
  refine ⟨⟨hS, hR, hB⟩, ?_, ?_, ?_, ?_, ?_, ?_, ?_, ?_, ?_, ?_⟩
  · intro now
    simp [Sensor.value, Sensor.error, Relay.value, Relay.error,
      Button.value, Button.error, latestSince, newestRow]
  · intro hist now
    simp [Sensor.error, Option.isNone_iff_eq_none]
  · intro hist now
    simp [Relay.error, Option.isNone_iff_eq_none]
  · intro hist now
    simp [Button.error, Option.isNone_iff_eq_none]
  · intro hist now r hpw hr hfr hmax
    unfold Sensor.value
    rw [hS]
    exact latestSince_map_some _ _ _ _ r hpw hr hfr hmax
  · intro hist now
    unfold Sensor.value
    rw [hS, Option.map_eq_none', latestSince_eq_none_iff]
  · intro hist now r hpw hr hfr hmax
    unfold Relay.value
    rw [hR]
    exact latestSince_map_some _ _ _ _ r hpw hr hfr hmax
  · intro hist now
    unfold Relay.value
    rw [hR, Option.map_eq_none', latestSince_eq_none_iff]
  · intro hist now r hpw hr hfr hmax
    unfold Button.value
    rw [hB]
    exact latestSince_map_some _ _ _ _ r hpw hr hfr hmax
  · intro hist now
    unfold Button.value
    rw [hB, Option.map_eq_none', latestSince_eq_none_iff]

/-- Witness for C3: a sensor whose single history row is 60 seconds old
resolves to that row's value; the max-timestamp hypotheses are discharged at
the concrete input. -/
theorem currentValue_staleness_windows_witness :
    Sensor.value [{ timestamp := 0, value := 21, limit_min := 0, limit_max := 100,
                    alarm_min := 0, alarm_max := 100 }] 60 = some 21 := by
  have h := currentValue_staleness_windows.2.2.2.2.2.1
    [{ timestamp := 0, value := 21, limit_min := 0, limit_max := 100,
       alarm_min := 0, alarm_max := 100 }] 60
    { timestamp := 0, value := 21, limit_min := 0, limit_max := 100,
      alarm_min := 0, alarm_max := 100 }
    (by decide) (by decide) (by decide) (by decide)
  exact h

/-- C4: a Sensor's `alarm` is `false` on error, and otherwise is
`not (alarm_min <= currentValue <= alarm_max)` against the entity's *live*
thresholds; lowering `alarm_max` below the already-stored current value flips
`alarm` from `false` to `true` on the same unchanged history. -/
theorem sensor_alarm_live_thresholds :
    (∀ (s : Sensor) (hist : List SensorHistoryRow) (now : ℤ),
        Sensor.error hist now = true → Sensor.alarm s hist now = false)
    ∧ (∀ (s : Sensor) (hist : List SensorHistoryRow) (now : ℤ) (x : ℚ),
        Sensor.value hist now = some x →
        Sensor.alarm s hist now
          = !(decide (s.alarm_min ≤ x) && decide (x ≤ s.alarm_max)))
    ∧ (∀ (s : Sensor) (hist : List SensorHistoryRow) (now : ℤ) (x m' : ℚ),
        Sensor.value hist now = some x →
        s.alarm_min ≤ x → x ≤ s.alarm_max → m' < x →
        Sensor.alarm s hist now = false
        ∧ Sensor.alarm { s with alarm_max := m' } hist now = true) := by
  refine ⟨?_, ?_, ?_⟩
  · intro s hist now herr
    simp [Sensor.alarm, herr]
  · intro s hist now x hval
    have herr : Sensor.error hist now = false := by
      simp [Sensor.error, hval]
    simp [Sensor.alarm, herr, hval]
  · intro s hist now x m' hval h1 h2 h3
    have herr : Sensor.error hist now = false := by
      simp [Sensor.error, hval]
    constructor
    · simp [Sensor.alarm, herr, hval, h1, h2]
    · have hnle : ¬ x ≤ m' := not_le.mpr h3
      simp [Sensor.alarm, herr, hval, h1, hnle]

/-- Witness for C4: with a stored reading of 21 and live thresholds 0..100 the
alarm is off; lowering `alarm_max` to 10 on the entity (same history) turns it
on. -/
theorem sensor_alarm_live_thresholds_witness :
    Sensor.alarm sampleSensor
        [{ timestamp := 0, value := 21, limit_min := 0, limit_max := 100,
           alarm_min := 0, alarm_max := 100 }] 60 = false
    ∧ Sensor.alarm { sampleSensor with alarm_max := 10 }
        [{ timestamp := 0, value := 21, limit_min := 0, limit_max := 100,
           alarm_min := 0, alarm_max := 100 }] 60 = true := by
  have h := sensor_alarm_live_thresholds.2.2 sampleSensor
    [{ timestamp := 0, value := 21, limit_min := 0, limit_max := 100,
       alarm_min := 0, alarm_max := 100 }] 60 21 10
    (by decide) (by decide) (by decide) (by decide)
  exact h

/-- C7: `is_on` is true iff the current value exists and is positive, `is_off`
is its negation, and a Relay whose rows are all older than the 65-minute
staleness window has `error = true` and `is_on = false`. -/
theorem relay_is_on_characterization :
    (∀ (hist : List RelayHistoryRow) (now : ℤ),
        Relay.is_on hist now = true
          ↔ ∃ x, Relay.value hist now = some x ∧ 0 < x)
    ∧ (∀ (hist : List RelayHistoryRow) (now : ℤ),
        Relay.is_off hist now = !(Relay.is_on hist now))
    ∧ (∀ (hist : List RelayHistoryRow) (now : ℤ),
        (∀ h ∈ hist, h.timestamp < now - Relay.MAX_VALUE_AGE) →
        Relay.error hist now = true ∧ Relay.is_on hist now = false) := by
  refine ⟨?_, ?_, ?_⟩
  · intro hist now
    unfold Relay.is_on
    cases hval : Relay.value hist now with
    | none => simp
    | some x => simp
  · intro hist now
    rfl
  · intro hist now hstale
    have hnone : Relay.value hist now = none := by
      unfold Relay.value
      rw [Option.map_eq_none', latestSince_eq_none_iff]
      intro h hh
      exact not_le.mpr (hstale h hh)
    constructor
    · simp [Relay.error, hnone]
    · simp [Relay.is_on, hnone]

/-- Witness for C7: a relay whose only reading (value 100) is 66 minutes old
reports an error and is off. -/
theorem relay_is_on_characterization_witness :
    Relay.error [{ timestamp := 0, value := 100, wattage := 40, flow := 10 }] 3960 = true
    ∧ Relay.is_on [{ timestamp := 0, value := 100, wattage := 40, flow := 10 }] 3960 = false := by
  have h := relay_is_on_characterization.2.2
    [{ timestamp := 0, value := 100, wattage := 40, flow := 10 }] 3960
    (by decide)
  exact h

/-- C9: reading the `alarm` property of a `SensorHistory` row always raises a
`TypeError`, because the getter `def alarm():` declares no `self` parameter
while the property protocol calls it with one argument; the snapshot
thresholds are never evaluated through this property. -/
theorem sensorHistory_alarm_always_fails (row : SensorHistoryRow) :
    SensorHistory.alarm row = Except.error "TypeError" := rfl

/-- C10: the sensor merge mode is the fixed constant 2 (running average), so
`Sensor.update` never takes the keep-first or overwrite branches: every
non-null reading returns a row (no unchanged-value no-op), and a repeated
identical reading is still merged by averaging. -/
theorem sensor_update_never_noop :
    Sensor.VALUE_MODE = 2
    ∧ (∀ (s : Sensor) (hist : List SensorHistoryRow) (v : ℚ) (now : ℤ),
        (Sensor.update s hist (some v) now).1.isSome = true)
    ∧ (∀ (s : Sensor) (hist : List SensorHistoryRow) (v : ℚ) (now : ℤ)
        (r : SensorHistoryRow),
        hist.find? (fun h => h.timestamp = minuteTrunc now) = some r →
        r.value = v →
        (Sensor.update s hist (some v) now).1 = some (runningMerge s r v)
        ∧ (runningMerge s r v).value = v) := by
  refine ⟨rfl, ?_, ?_⟩
  · intro s hist v now
    unfold Sensor.update
    cases hfind : hist.find? (fun h => h.timestamp = minuteTrunc now) <;>
      simp [hfind, Sensor.VALUE_MODE]
  · intro s hist v now r hfind hv
    constructor
    · simp [Sensor.update, hfind, Sensor.VALUE_MODE, runningMerge]
    · simp [runningMerge, hv]

/-- Witness for C10: a sensor row holding 21 merged with a fresh identical
reading 21 is written again as the average 21. -/
theorem sensor_update_never_noop_witness :
    (Sensor.update sampleSensor
        [{ timestamp := 0, value := 21, limit_min := 0, limit_max := 100,
           alarm_min := 0, alarm_max := 100 }] (some 21) 30).1
      = some (runningMerge sampleSensor
          { timestamp := 0, value := 21, limit_min := 0, limit_max := 100,
            alarm_min := 0, alarm_max := 100 } 21)
    ∧ (runningMerge sampleSensor
        { timestamp := 0, value := 21, limit_min := 0, limit_max := 100,
          alarm_min := 0, alarm_max := 100 } 21).value = 21 := by
  have h := sensor_update_never_noop.2.2 sampleSensor
    [{ timestamp := 0, value := 21, limit_min := 0, limit_max := 100,
       alarm_min := 0, alarm_max := 100 }] 21 30
    { timestamp := 0, value := 21, limit_min := 0, limit_max := 100,
      alarm_min := 0, alarm_max := 100 }
    (by decide) (by decide)
  exact h

/-- C2: a null reading is a no-op; with `force` set or a reading that differs
from the resolved current value, `Relay.update` inserts one row at `now` with
the derived wattage/flow and returns it; otherwise it is a no-op returning
none.  Hence two consecutive identical-value calls without force produce
exactly one new row, and with force both calls insert. -/
theorem relay_update_change_detection :
    (∀ (r : Relay) (hist : List RelayHistoryRow) (force : Bool) (now : ℤ),
        Relay.update r hist none force now = (none, hist))
    ∧ (∀ (r : Relay) (hist : List RelayHistoryRow) (v : ℚ) (force : Bool) (now : ℤ),
        force = true ∨ some v ≠ Relay.value hist now →
        Relay.update r hist (some v) force now =
          (some (relayRow r v now), relayRow r v now :: hist))
    ∧ (∀ (r : Relay) (hist : List RelayHistoryRow) (v : ℚ) (now : ℤ),
        some v = Relay.value hist now →
        Relay.update r hist (some v) false now = (none, hist))
    ∧ (∀ (r : Relay) (hist : List RelayHistoryRow) (v : ℚ) (now₁ now₂ : ℤ),
        (∀ h ∈ hist, h.timestamp ≤ now₁) →
        now₁ ≤ now₂ → now₂ ≤ now₁ + Relay.MAX_VALUE_AGE →
        some v ≠ Relay.value hist now₁ →
        (Relay.update r (Relay.update r hist (some v) false now₁).2
            (some v) false now₂).2
          = relayRow r v now₁ :: hist)
    ∧ (∀ (r : Relay) (hist : List RelayHistoryRow) (v : ℚ) (now₁ now₂ : ℤ),
        (Relay.update r (Relay.update r hist (some v) true now₁).2
            (some v) true now₂).2
          = relayRow r v now₂ :: relayRow r v now₁ :: hist) := by
  refine ⟨?_, ?_, ?_, ?_, ?_⟩
  · intro r hist force now
    rfl
  · intro r hist v force now h
    rcases h with h | h
    · subst h
      simp [Relay.update, relayRow]
    · simp [Relay.update, relayRow, h]
  · intro r hist v now h
    simp [Relay.update, h.symm]
  · intro r hist v now₁ now₂ hpast h12 hwin hne
    have h1 : Relay.update r hist (some v) false now₁
        = (some (relayRow r v now₁), relayRow r v now₁ :: hist) := by
      simp [Relay.update, relayRow, hne]
    rw [h1]
    have hval : Relay.value (relayRow r v now₁ :: hist) now₂ = some v := by
      unfold Relay.value
      rw [latestSince_cons_fresh]
      · rfl
      · show now₂ - Relay.MAX_VALUE_AGE ≤ (relayRow r v now₁).timestamp
        simp only [relayRow]
        exact sub_le_iff_le_add.mpr hwin
      · intro h hh
        show h.timestamp ≤ (relayRow r v now₁).timestamp
        simp only [relayRow]
        exact hpast h hh
    simp [Relay.update, hval]
  · intro r hist v now₁ now₂
    simp [Relay.update, relayRow]

/-- Witness for C2: two identical readings of 50, one minute apart, leave a
single new history row. -/
theorem relay_update_change_detection_witness :
    (Relay.update sampleRelay
        (Relay.update sampleRelay [] (some 50) false 0).2 (some 50) false 60).2
      = [relayRow sampleRelay 50 0] := by
  have h := relay_update_change_detection.2.2.2.1 sampleRelay [] 50 0 60
    (by simp) (by decide) (by decide) (by decide)
  exact h

theorem sensor_update_merge_eq (s : Sensor) (hist : List SensorHistoryRow)
    (v : ℚ) (now : ℤ) (r : SensorHistoryRow)
    (hfind : hist.find? (fun h => h.timestamp = minuteTrunc now) = some r) :
    Sensor.update s hist (some v) now =
      (some (runningMerge s r v),
       hist.map fun h =>
         if h.timestamp = minuteTrunc now then runningMerge s r v else h) := by
  simp [Sensor.update, hfind, Sensor.VALUE_MODE, runningMerge]

theorem sensor_update_insert_eq (s : Sensor) (hist : List SensorHistoryRow)
    (v : ℚ) (now : ℤ)
    (hfind : hist.find? (fun h => h.timestamp = minuteTrunc now) = none) :
    Sensor.update s hist (some v) now =
      (some (freshRow s v (minuteTrunc now)),
       freshRow s v (minuteTrunc now) :: hist) := by
  simp [Sensor.update, hfind, freshRow]

theorem map_if_timestamp_eq_id (b : ℤ) (m : SensorHistoryRow) :
    ∀ (l : List SensorHistoryRow), (∀ x ∈ l, x.timestamp ≠ b) →
      (l.map fun x => if x.timestamp = b then m else x) = l
  | [], _ => rfl
  | a :: as, h => by
    simp only [List.map_cons]
    rw [if_neg (h a (List.mem_cons_self a as))]
    rw [map_if_timestamp_eq_id b m as fun x hx => h x (List.mem_cons_of_mem a hx)]

theorem runningMerge_timestamp (s : Sensor) (r : SensorHistoryRow) (v : ℚ) :
    (runningMerge s r v).timestamp = r.timestamp := rfl

theorem updateMany_same_bucket (s : Sensor) (b : ℤ) :
    ∀ (ps : List (ℤ × ℚ)) (r : SensorHistoryRow) (hist : List SensorHistoryRow),
      r.timestamp = b →
      (∀ h ∈ hist, h.timestamp ≠ b) →
      (∀ p ∈ ps, minuteTrunc p.1 = b) →
      Sensor.updateMany s (r :: hist) ps
        = (ps.foldl (fun row p => runningMerge s row p.2) r) :: hist
  | [], r, hist, _, _, _ => rfl
  | (t, v) :: ps, r, hist, hr, hnb, hps => by
    have hb : minuteTrunc t = b := hps (t, v) (List.mem_cons_self _ _)
    have hfind : (r :: hist).find? (fun h => h.timestamp = minuteTrunc t) = some r :=
      List.find?_cons_of_pos _ (by simp [hr, hb])
    unfold Sensor.updateMany
    rw [sensor_update_merge_eq s _ v t r hfind]
    simp only [List.map_cons]
    rw [if_pos (by rw [hr, hb])]
    rw [map_if_timestamp_eq_id (minuteTrunc t) _ hist (by rw [hb]; exact hnb)]
    rw [updateMany_same_bucket s b ps (runningMerge s r v) hist
        (by rw [runningMerge_timestamp, hr]) hnb
        (fun p hp => hps p (List.mem_cons_of_mem _ hp))]
    rfl

theorem foldl_runningMerge_timestamp (s : Sensor) :
    ∀ (ps : List (ℤ × ℚ)) (r : SensorHistoryRow),
      (ps.foldl (fun row p => runningMerge s row p.2) r).timestamp = r.timestamp
  | [], r => rfl
  | p :: ps, r => by
    simp only [List.foldl_cons]
    rw [foldl_runningMerge_timestamp s ps (runningMerge s r p.2),
      runningMerge_timestamp]

theorem foldl_runningMerge_value (s : Sensor) :
    ∀ (ps : List (ℤ × ℚ)) (r : SensorHistoryRow),
      (ps.foldl (fun row p => runningMerge s row p.2) r).value
        = cumAvg r.value (ps.map Prod.snd)
  | [], r => rfl
  | p :: ps, r => by
    simp only [List.foldl_cons, List.map_cons]
    rw [foldl_runningMerge_value s ps (runningMerge s r p.2)]
    rfl

/-- C5: recording the same value twice in the same bucket ends in the same
stored rows as recording it once - the second Relay/Button call is a no-op,
and a Sensor merge of an identical reading averages back to the same row. -/
theorem record_idempotent :
    (∀ (r : Relay) (hist : List RelayHistoryRow) (v : ℚ) (now : ℤ),
        (∀ h ∈ hist, h.timestamp ≤ now) →
        (Relay.update r (Relay.update r hist (some v) false now).2
            (some v) false now).2
          = (Relay.update r hist (some v) false now).2)
    ∧ (∀ (hist : List ButtonHistoryRow) (v : ℚ) (now : ℤ),
        (∀ h ∈ hist, h.timestamp ≤ now) →
        (Button.update (Button.update hist (some v) false now).2
            (some v) false now).2
          = (Button.update hist (some v) false now).2)
    ∧ (∀ (s : Sensor) (hist : List SensorHistoryRow) (v : ℚ) (now₁ now₂ : ℤ),
        minuteTrunc now₂ = minuteTrunc now₁ →
        (∀ h ∈ hist, h.timestamp ≠ minuteTrunc now₁) →
        (Sensor.update s hist (some v) now₁).2
            = freshRow s v (minuteTrunc now₁) :: hist
        ∧ (Sensor.update s (Sensor.update s hist (some v) now₁).2
            (some v) now₂).2
            = (Sensor.update s hist (some v) now₁).2) := by
  refine ⟨?_, ?_, ?_⟩
  · intro r hist v now hpast
    by_cases hgate : some v = Relay.value hist now
    · have h1 : Relay.update r hist (some v) false now = (none, hist) := by
        simp [Relay.update, hgate.symm]
      rw [h1]
      exact congrArg Prod.snd h1
    · have h1 : Relay.update r hist (some v) false now
          = (some (relayRow r v now), relayRow r v now :: hist) := by
        simp [Relay.update, relayRow, hgate]
      rw [h1]
      have hval : Relay.value (relayRow r v now :: hist) now = some v := by
        unfold Relay.value
        rw [latestSince_cons_fresh]
        · rfl
        · show now - Relay.MAX_VALUE_AGE ≤ (relayRow r v now).timestamp
          exact sub_le_self now (by decide)
        · intro h hh
          exact hpast h hh
      simp [Relay.update, hval]
  · intro hist v now hpast
    by_cases hgate : some v = Button.value hist now
    · have h1 : Button.update hist (some v) false now = (none, hist) := by
        simp [Button.update, hgate.symm]
      rw [h1]
      exact congrArg Prod.snd h1
    · have h1 : Button.update hist (some v) false now
          = (some { timestamp := now, value := v },
             ({ timestamp := now, value := v } : ButtonHistoryRow) :: hist) := by
        simp [Button.update, hgate]
      rw [h1]
      have hval : Button.value (({ timestamp := now, value := v } : ButtonHistoryRow) :: hist) now
          = some v := by
        unfold Button.value
        rw [latestSince_cons_fresh]
        · rfl
        · exact sub_le_self now (by decide)
        · intro h hh
          exact hpast h hh
      simp [Button.update, hval]
  · intro s hist v now₁ now₂ hb hnb
    have hfind : hist.find? (fun h => h.timestamp = minuteTrunc now₁) = none :=
      List.find?_eq_none.mpr (by intro x hx; simpa using hnb x hx)
    have h1 := sensor_update_insert_eq s hist v now₁ hfind
    constructor
    · rw [h1]
    · rw [h1]
      have hfind2 : (freshRow s v (minuteTrunc now₁) :: hist).find?
          (fun h => h.timestamp = minuteTrunc now₂)
          = some (freshRow s v (minuteTrunc now₁)) :=
        List.find?_cons_of_pos _ (by simp [freshRow, hb])
      rw [sensor_update_merge_eq s _ v now₂ _ hfind2]
      have hmerge : runningMerge s (freshRow s v (minuteTrunc now₁)) v
          = freshRow s v (minuteTrunc now₁) := by
        simp [runningMerge, freshRow]
      rw [hmerge]
      simp only [List.map_cons]
      rw [if_pos (by simp [freshRow, hb])]
      rw [map_if_timestamp_eq_id _ _ hist (by rw [hb]; exact hnb)]

/-- Witness for C5: recording 50 twice for a relay at one instant, twice for a
button, and twice for a sensor inside one minute bucket, each ends in the
one-call state. -/
theorem record_idempotent_witness :
    (Relay.update sampleRelay
        (Relay.update sampleRelay [] (some 50) false 0).2 (some 50) false 0).2
      = (Relay.update sampleRelay [] (some 50) false 0).2
    ∧ (Button.update (Button.update [] (some 1) false 0).2 (some 1) false 0).2
      = (Button.update [] (some 1) false 0).2
    ∧ (Sensor.update sampleSensor
          (Sensor.update sampleSensor [] (some 21) 10).2 (some 21) 50).2
      = (Sensor.update sampleSensor [] (some 21) 10).2 := by
  refine ⟨?_, ?_, ?_⟩
  · exact record_idempotent.1 sampleRelay [] 50 0 (by simp)
  · exact record_idempotent.2.1 [] 1 0 (by simp)
  · exact (record_idempotent.2.2 sampleSensor [] 21 10 50 (by decide) (by simp)).2

/-- C1: in running-average mode an existing minute-bucket row is merged - the
stored value becomes `(previous + reading) / 2` and each of `limit_min`,
`limit_max`, `alarm_min`, `alarm_max` becomes the average of the row's field
and the entity's current threshold; without an existing row a fresh row holds
the reading and thresholds verbatim.  For a sequence of readings inside one
minute bucket, exactly one row exists for that bucket, its value is the
cumulative pairwise average in call order, and in particular 10, 20, 30 yield
22.5 rather than the arithmetic mean 20. -/
theorem sensor_running_average :
    (∀ (s : Sensor) (hist : List SensorHistoryRow) (v : ℚ) (now : ℤ)
        (r : SensorHistoryRow),
        hist.find? (fun h => h.timestamp = minuteTrunc now) = some r →
        Sensor.update s hist (some v) now =
          (some (runningMerge s r v),
           hist.map fun h =>
             if h.timestamp = minuteTrunc now then runningMerge s r v else h))
    ∧ (∀ (s : Sensor) (hist : List SensorHistoryRow) (v : ℚ) (now : ℤ),
        hist.find? (fun h => h.timestamp = minuteTrunc now) = none →
        Sensor.update s hist (some v) now =
          (some (freshRow s v (minuteTrunc now)),
           freshRow s v (minuteTrunc now) :: hist))
    ∧ (∀ (s : Sensor) (hist : List SensorHistoryRow) (t : ℤ) (v : ℚ)
        (ts' : List ℤ) (vs : List ℚ),
        (∀ u ∈ ts', minuteTrunc u = minuteTrunc t) →
        (∀ h ∈ hist, h.timestamp ≠ minuteTrunc t) →
        ts'.length = vs.length →
        (Sensor.updateMany s hist ((t, v) :: ts'.zip vs)).countP
            (fun h => h.timestamp = minuteTrunc t) = 1
        ∧ ∃ row ∈ Sensor.updateMany s hist ((t, v) :: ts'.zip vs),
            row.timestamp = minuteTrunc t ∧ row.value = cumAvg v vs)
    ∧ cumAvg 10 [20, 30] = 45 / 2 := by
  refine ⟨sensor_update_merge_eq, sensor_update_insert_eq, ?_, by norm_num [cumAvg]⟩
  intro s hist t v ts' vs hts hnb hlen
  have hfind : hist.find? (fun h => h.timestamp = minuteTrunc t) = none :=
    List.find?_eq_none.mpr (by intro x hx; simpa using hnb x hx)
  have h1 : Sensor.updateMany s hist ((t, v) :: ts'.zip vs)
      = Sensor.updateMany s (freshRow s v (minuteTrunc t) :: hist) (ts'.zip vs) := by
    have hsnd : (Sensor.update s hist (some v) t).2
        = freshRow s v (minuteTrunc t) :: hist :=
      congrArg Prod.snd (sensor_update_insert_eq s hist v t hfind)
    calc Sensor.updateMany s hist ((t, v) :: ts'.zip vs)
        = Sensor.updateMany s (Sensor.update s hist (some v) t).2 (ts'.zip vs) := rfl
      _ = Sensor.updateMany s (freshRow s v (minuteTrunc t) :: hist) (ts'.zip vs) := by
          rw [hsnd]
  have hzip : ∀ p ∈ ts'.zip vs, minuteTrunc p.1 = minuteTrunc t := by
    intro p hp
    exact hts p.1 (List.of_mem_zip hp).1
  have h2 := updateMany_same_bucket s (minuteTrunc t) (ts'.zip vs)
      (freshRow s v (minuteTrunc t)) hist rfl hnb hzip
  rw [h1, h2]
  set final := (ts'.zip vs).foldl (fun row p => runningMerge s row p.2)
      (freshRow s v (minuteTrunc t)) with hfinal
  have hts_final : final.timestamp = minuteTrunc t := by
    rw [hfinal, foldl_runningMerge_timestamp]
    rfl
  constructor
  · rw [List.countP_cons_of_pos _ _ (by simpa using hts_final)]
    rw [List.countP_eq_zero.mpr (by intro x hx; simpa using hnb x hx)]
  · refine ⟨final, List.mem_cons_self _ _, hts_final, ?_⟩
    rw [hfinal, foldl_runningMerge_value]
    rw [List.map_snd_zip ts' vs (le_of_eq hlen.symm)]
    rfl

/-- Witness for C1: the readings 10, 20, 30 recorded at seconds 0, 10, 20 of
the same minute leave exactly one bucket row whose value is the cumulative
pairwise average 22.5. -/
theorem sensor_running_average_witness :
    (Sensor.updateMany sampleSensor [] [(0, 10), (10, 20), (20, 30)]).countP
        (fun h => h.timestamp = minuteTrunc 0) = 1
    ∧ ∃ row ∈ Sensor.updateMany sampleSensor [] [(0, 10), (10, 20), (20, 30)],
        row.timestamp = minuteTrunc 0 ∧ row.value = cumAvg 10 [20, 30] := by
  have h := sensor_running_average.2.2.1 sampleSensor [] 0 10 [10, 20] [20, 30]
    (by decide) (by simp) (by decide)
  exact h

theorem lowerChar_dot_eval : lowerChar '.' = '.' := by decide

theorem lowerChar_slash_eval : lowerChar '/' = '/' := by decide

theorem lowerChar_eq_of_not_image (c d : Char)
    (hd : ∀ q ∈ upperLower, q.2 ≠ d) (h : lowerChar c = d) : c = d := by
  unfold lowerChar at h
  cases hf : upperLower.find? (fun p => p.1 = c) with
  | none =>
    rw [hf] at h
    exact h
  | some p =>
    rw [hf] at h
    exact absurd h (hd p (List.mem_of_find?_eq_some hf))

theorem lowerChar_eq_dot (c : Char) (h : lowerChar c = '.') : c = '.' :=
  lowerChar_eq_of_not_image c '.' (by decide) h

theorem lowerChar_eq_slash (c : Char) (h : lowerChar c = '/') : c = '/' :=
  lowerChar_eq_of_not_image c '/' (by decide) h

theorem imageExtensions_facts :
    ∀ ext ∈ imageExtensions,
      strLower ext ≠ [] ∧ '.' ∉ strLower ext ∧ '/' ∉ strLower ext := by decide

theorem takeWhile_append_pos (p : Char → Bool) :
    ∀ (xs ys : List Char), (∀ x ∈ xs, p x = true) →
      (xs ++ ys).takeWhile p = xs ++ ys.takeWhile p
  | [], ys, _ => rfl
  | x :: xs, ys, h => by
    simp only [List.cons_append, List.takeWhile_cons,
      h x (List.mem_cons_self x xs), if_true]
    rw [takeWhile_append_pos p xs ys fun y hy => h y (List.mem_cons_of_mem x hy)]

theorem splitAtFirstDot_append :
    ∀ (e y : List Char), '.' ∉ e →
      splitAtFirstDot (e ++ '.' :: y) = some (e, y)
  | [], y, _ => by simp [splitAtFirstDot]
  | c :: cs, y, he => by
    have hc : ¬ c = '.' := fun h => he (h ▸ List.mem_cons_self c cs)
    have ih := splitAtFirstDot_append cs y fun h => he (List.mem_cons_of_mem c h)
    show splitAtFirstDot (c :: (cs ++ '.' :: y)) = some (c :: cs, y)
    unfold splitAtFirstDot
    rw [if_neg hc, ih]
    rfl

theorem pySuffix_eq (a e : List Char) (ha : a ≠ []) (he : e ≠ []) (hde : '.' ∉ e) :
    pySuffix (a ++ '.' :: e) = '.' :: e := by
  unfold pySuffix
  have h1 : (a ++ '.' :: e).reverse = e.reverse ++ '.' :: a.reverse := by
    simp
  rw [h1, splitAtFirstDot_append e.reverse a.reverse (by simpa using hde)]
  simp [he, ha]

theorem stripSlashes_no_slash_end (X e : List Char) (he : e ≠ []) (hse : '/' ∉ e) :
    stripSlashes (X ++ e) = X ++ e := by
  obtain ⟨c, cs, hrev⟩ :=
    List.exists_cons_of_ne_nil (show e.reverse ≠ [] by simpa using he)
  have hc : ¬ c = '/' := by
    intro h
    exact hse (h ▸ List.mem_reverse.mp (hrev ▸ List.mem_cons_self c cs))
  unfold stripSlashes
  rw [List.reverse_append, hrev, List.cons_append,
    List.dropWhile_cons_of_neg (by simpa using hc),
    ← List.cons_append, ← hrev, ← List.reverse_append, List.reverse_reverse]

theorem pyName_append (u a e : List Char) (hsa : '/' ∉ a) (hse : '/' ∉ e) :
    pyName (u ++ (a ++ '.' :: e))
      = (u.reverse.takeWhile (· ≠ '/')).reverse ++ (a ++ '.' :: e) := by
  have hnot : '/' ∉ a ++ '.' :: e := by
    intro h
    rcases List.mem_append.mp h with h | h
    · exact hsa h
    · rcases List.mem_cons.mp h with h | h
      · exact absurd h.symm (by decide)
      · exact hse h
  unfold pyName
  rw [stripSlashes_no_slash_end u (a ++ '.' :: e) (by simp) hnot]
  rw [List.reverse_append]
  rw [takeWhile_append_pos _ _ _ (by
    intro x hx
    simp only [decide_eq_true_eq]
    intro hxe
    exact hnot (hxe ▸ List.mem_reverse.mp hx))]
  rw [List.reverse_append, List.reverse_reverse]

/-- C8 counterexample: the rename regex matches case-insensitively, so an
image path already ending in an upper-case variant of `{id}.{ext}` is kept
unchanged and the stored path does *not* end with the enclosure id followed by
the original extension: with id `ab` the persisted path `/img/AB.jpg` does not
end with `ab.jpg`. -/
theorem enclosure_image_case_counterexample :
    renamedImage "ab".toList "/img/AB.jpg".toList = "/img/AB.jpg".toList
    ∧ ¬ (("ab".toList ++ pySuffix (pyName "/img/AB.jpg".toList)).isSuffixOf
          "/img/AB.jpg".toList = true) := by
  constructor
  · rfl
  · decide

/-- C8 (amended): on every insert and update the persisted image path ends
with the enclosure id followed by the original image extension *up to ASCII
letter case* - the regex gate is case-insensitive, so a pre-existing path may
differ from the id in letter case only - provided the id is nonempty and
contains no path separator (both hold for a UUID id). -/
theorem enclosure_image_named_after_id (id image : List Char)
    (hid : id ≠ []) (hslash : '/' ∉ id) :
    (strLower (id ++ pySuffix (pyName image))).isSuffixOf
      (strLower (renamedImage id image)) = true := by
  rw [List.isSuffixOf_iff_suffix]
  unfold renamedImage
  by_cases hm : imageMatches id image = true
  · rw [if_pos hm]
    unfold imageMatches at hm
    rw [List.any_eq_true] at hm
    obtain ⟨ext, hext, hsuf⟩ := hm
    rw [List.isSuffixOf_iff_suffix] at hsuf
    obtain ⟨pre, hpre⟩ := hsuf
    obtain ⟨hextne, hdot, hsl⟩ := imageExtensions_facts ext hext
    have hlow : strLower (id ++ '.' :: ext) = strLower id ++ '.' :: strLower ext := by
      simp [strLower, lowerChar_dot_eval]
    rw [hlow] at hpre
    obtain ⟨u, w1, himage, hu, hw1⟩ := List.append_eq_map_iff.mp hpre
    obtain ⟨a, w2, hw1eq, ha, hw2⟩ := List.append_eq_map_iff.mp hw1.symm
    obtain ⟨c, e, hw2eq, hc, he⟩ := List.map_eq_cons_iff.mp hw2
    have hcdot : c = '.' := lowerChar_eq_dot c hc
    subst hcdot
    subst hw2eq
    subst hw1eq
    subst himage
    have hane : a ≠ [] := by
      intro h
      subst h
      exact hid (by simpa [strLower] using ha.symm)
    have hsa : '/' ∉ a := by
      intro h
      have hmem : lowerChar '/' ∈ a.map lowerChar := List.mem_map_of_mem _ h
      rw [ha, lowerChar_slash_eval] at hmem
      obtain ⟨x, hx, hlx⟩ := List.mem_map.mp hmem
      exact hslash ((lowerChar_eq_slash x hlx) ▸ hx)
    have hene : e ≠ [] := by
      intro h
      subst h
      exact hextne (by simpa [strLower] using he.symm)
    have hdote : '.' ∉ e := by
      intro h
      have hmem : lowerChar '.' ∈ e.map lowerChar := List.mem_map_of_mem _ h
      rw [he, lowerChar_dot_eval] at hmem
      exact hdot hmem
    have hsle : '/' ∉ e := by
      intro h
      have hmem : lowerChar '/' ∈ e.map lowerChar := List.mem_map_of_mem _ h
      rw [he, lowerChar_slash_eval] at hmem
      exact hsl hmem
    have hname : pySuffix (pyName (u ++ (a ++ '.' :: e))) = '.' :: e := by
      rw [pyName_append u a e hsa hsle]
      rw [show (u.reverse.takeWhile (· ≠ '/')).reverse ++ (a ++ '.' :: e)
            = ((u.reverse.takeWhile (· ≠ '/')).reverse ++ a) ++ '.' :: e by
          simp [List.append_assoc]]
      exact pySuffix_eq _ e (by simp [List.append_eq_nil, hane]) hene hdote
    rw [hname]
    refine ⟨pre, ?_⟩
    simp only [strLower, List.map_append, List.map_cons, lowerChar_dot_eval]
    simp only [strLower] at he
    rw [hu, he, ha]
    rfl
  · rw [if_neg hm]
    refine ⟨strLower (pyParent image) ++ ['/'], ?_⟩
    simp [strLower, lowerChar_slash_eval, List.append_assoc]

/-- Witness for the amended C8: a freshly configured enclosure image
`/img/photo.png` with id `ab` is renamed so that it ends with `ab.png`. -/
theorem enclosure_image_named_after_id_witness :
    (strLower ("ab".toList ++ pySuffix (pyName "/img/photo.png".toList))).isSuffixOf
      (strLower (renamedImage "ab".toList "/img/photo.png".toList)) = true :=
  enclosure_image_named_after_id "ab".toList "/img/photo.png".toList
    (by decide) (by decide)
